import Mathlib

set_option maxRecDepth 100000

/-!
Verification development for the gymvision-ai exercise-recognition service
(`app.py`).  The Python functions relevant to the checked properties are
shallowly embedded as executable Lean definitions; characters are treated by
the ASCII table (Lean `Char.toLower`, `Char.isAlphanum`, …), which agrees with
the Python string methods on ASCII input.
-/

namespace GymVision

/-! ## Label normalizer (`normalize_label`, app.py line 74)

Python source:
`return "".join(ch if ch.isalnum() else "_" for ch in (text or "").lower()).strip("_")`

The `or ""` guard only replaces a missing value by the empty string, so the
embedding takes a `String` argument directly.  `str.strip("_")` removes every
leading and trailing underscore, which is `dropWhile` from the left combined
with `List.rdropWhile` from the right. -/

/-- Test used by `str.strip("_")`: is the character an underscore? -/
def isUnderscore (c : Char) : Bool := c == '_'

/-- Embedding of `str.strip("_")` on the character list of a string. -/
def stripUnderscores (l : List Char) : List Char :=
  (l.dropWhile isUnderscore).rdropWhile isUnderscore

/-- Embedding of one step of the generator: `ch if ch.isalnum() else "_"`. -/
def underscoreNonAlnum (c : Char) : Char :=
  if c.isAlphanum then c else '_'

/-- Embedding of `normalize_label` (app.py line 74). -/
def normalize_label (text : String) : String :=
  ⟨stripUnderscores ((text.data.map Char.toLower).map underscoreNonAlnum)⟩

/-! ### Character-level facts used for the normalizer proofs -/

/-- Unpacking `Char.ofNat` at a valid codepoint. -/
theorem toNat_ofNat_valid {n : Nat} (h : n.isValidChar) : (Char.ofNat n).toNat = n := by
  rw [Char.ofNat, dif_pos h]
  rfl

/-- Unfolding of `Char.toLower` as a conditional on the scalar value. -/
theorem toLower_eq (c : Char) :
    c.toLower = if c.toNat ≥ 65 ∧ c.toNat ≤ 90 then Char.ofNat (c.toNat + 32) else c := rfl

/-- Lowercasing is idempotent: the result of `Char.toLower` is never an
uppercase letter, so a second pass changes nothing. -/
theorem toLower_toLower (c : Char) : c.toLower.toLower = c.toLower := by
  by_cases h : c.toNat ≥ 65 ∧ c.toNat ≤ 90
  · have h1 : c.toLower = Char.ofNat (c.toNat + 32) := by rw [toLower_eq, if_pos h]
    have hv : (c.toNat + 32).isValidChar := Or.inl (by omega)
    rw [h1, toLower_eq, toNat_ofNat_valid hv, if_neg (by omega)]
  · have h1 : c.toLower = c := by rw [toLower_eq, if_neg h]
    rw [h1]
    exact h1

/-- Core fixed-point fact: applying lower-then-underscore twice equals once. -/
theorem underscoreNonAlnum_fix (c : Char) :
    underscoreNonAlnum (underscoreNonAlnum c.toLower).toLower
      = underscoreNonAlnum c.toLower := by
  by_cases h : (c.toLower).isAlphanum
  · have h1 : underscoreNonAlnum c.toLower = c.toLower := if_pos h
    rw [h1, toLower_toLower, h1]
  · have h1 : underscoreNonAlnum c.toLower = '_' := if_neg h
    rw [h1]
    decide

/-! ### List-level facts about `stripUnderscores` -/

/-- Stripping underscores only removes elements. -/
theorem stripUnderscores_sublist (l : List Char) : List.Sublist (stripUnderscores l) l :=
  (( List.rdropWhile_prefix _ _).sublist).trans (List.dropWhile_sublist _)

/-- Being stable under a left strip passes to prefixes. -/
theorem dropWhile_eq_self_of_front {p : Char → Bool} :
    ∀ {m l : List Char}, m <+: l → l.dropWhile p = l → m.dropWhile p = m := by
  intro m l hpre hl
  cases m with
  | nil => rfl
  | cons a t =>
    cases l with
    | nil => exact absurd (List.eq_nil_of_prefix_nil hpre) (by simp)
    | cons b s =>
      have hab : a = b ∧ t <+: s := (List.cons_prefix_cons).1 hpre
      have hpb : p b = false := by
        by_contra hb
        rw [List.dropWhile_cons_of_pos (by simpa using hb)] at hl
        have hlen := (List.dropWhile_sublist (l := s) (p := p)).length_le
        have := congrArg List.length hl
        simp at this
        omega
      rw [List.dropWhile_cons_of_neg (by simp [hab.1, hpb])]

/-- Stripping underscores from both ends is idempotent. -/
theorem stripUnderscores_idem (l : List Char) :
    stripUnderscores (stripUnderscores l) = stripUnderscores l := by
  unfold stripUnderscores
  rw [dropWhile_eq_self_of_front ( List.rdropWhile_prefix _ _)
      (List.dropWhile_idempotent _ _), List.rdropWhile_idempotent]

/-- Mapping a function that fixes every element of a list is the identity. -/
theorem map_id_of_fix {g : Char → Char} :
    ∀ {l : List Char}, (∀ x ∈ l, g x = x) → l.map g = l := by
  intro l
  induction l with
  | nil => intro _; rfl
  | cons a t ih =>
    intro h
    rw [List.map_cons, h a (by simp), ih (fun x hx => h x (by simp [hx]))]

/-- Every character surviving normalization is fixed by a further
lower-then-underscore pass. -/
theorem normalized_chars_fix (x : String) :
    ∀ d ∈ (normalize_label x).data, underscoreNonAlnum d.toLower = d := by
  intro d hd
  have hmem : d ∈ (x.data.map Char.toLower).map underscoreNonAlnum :=
    List.Sublist.mem hd (stripUnderscores_sublist _)
  rw [List.map_map] at hmem
  obtain ⟨c, _, hc⟩ := List.mem_map.1 hmem
  rw [← hc]
  exact underscoreNonAlnum_fix c

/-- The claim C4 property, on the character-list level. -/
theorem normalize_label_data (x : String) :
    (normalize_label x).data
      = stripUnderscores ((x.data.map Char.toLower).map underscoreNonAlnum) := rfl

/-- The output of the normalizer is stable under a further left strip. -/
theorem normalize_label_dropWhile_eq_self (x : String) :
    (normalize_label x).data.dropWhile isUnderscore = (normalize_label x).data := by
  rw [normalize_label_data]
  exact dropWhile_eq_self_of_front ( List.rdropWhile_prefix _ _)
    (List.dropWhile_idempotent _ _)

/-- The output of the normalizer is stable under a further right strip. -/
theorem normalize_label_rdropWhile_eq_self (x : String) :
    (normalize_label x).data.rdropWhile isUnderscore = (normalize_label x).data := by
  rw [normalize_label_data]
  exact List.rdropWhile_idempotent _ _

/-- Left-strip-stable lists do not start with an underscore. -/
theorem head_not_underscore {l : List Char} (h : l.dropWhile isUnderscore = l) :
    isUnderscore (l.head?.getD 'a') = false := by
  cases l with
  | nil => decide
  | cons b t =>
    cases hb : isUnderscore b with
    | false => simpa using hb
    | true =>
      rw [List.dropWhile_cons_of_pos hb] at h
      have hlen := (List.dropWhile_sublist (l := t) (p := isUnderscore)).length_le
      have := congrArg List.length h
      simp at this
      omega

/-- Right-strip-stable lists do not end with an underscore. -/
theorem getLast_not_underscore {l : List Char} (h : l.rdropWhile isUnderscore = l) :
    isUnderscore (l.getLast?.getD 'a') = false := by
  by_cases hl : l = []
  · subst hl; decide
  · have hlast := (List.rdropWhile_eq_self_iff.mp h) hl
    rw [List.getLast?_eq_getLast l hl]
    simpa using hlast

/-- Boolean check used by the C5 statement: a character is an (ASCII)
alphanumeric or an underscore, and is fixed by lowercasing. -/
def lowerAlnumOrUnderscore (c : Char) : Bool :=
  (c.isAlphanum || c == '_') && (c.toLower == c)

/-- Every character emitted by the normalizer passes the shape check. -/
theorem normalized_chars_shape (x : String) :
    ∀ c ∈ (normalize_label x).data, lowerAlnumOrUnderscore c = true := by
  intro c hc
  have hmem : c ∈ (x.data.map Char.toLower).map underscoreNonAlnum :=
    List.Sublist.mem hc (stripUnderscores_sublist _)
  rw [List.map_map] at hmem
  obtain ⟨d, _, hd⟩ := List.mem_map.1 hmem
  by_cases ha : (d.toLower).isAlphanum
  · have hcd : c = d.toLower := by rw [← hd]; simp [Function.comp, underscoreNonAlnum, ha]
    subst hcd
    simp [lowerAlnumOrUnderscore, ha, toLower_toLower]
  · have hcd : c = '_' := by rw [← hd]; simp [Function.comp, underscoreNonAlnum, ha]
    subst hcd
    decide

/-! ### Claim theorems for the label normalizer -/

/-- C4: the label normalizer is idempotent — for every string `x`,
`normalize_label (normalize_label x) = normalize_label x`. -/
theorem normalize_label_idempotent (x : String) :
    normalize_label (normalize_label x) = normalize_label x := by
  apply String.ext
  rw [normalize_label_data (normalize_label x), List.map_map]
  have hmap := map_id_of_fix (g := underscoreNonAlnum ∘ Char.toLower)
    (l := (normalize_label x).data) (fun d hd => normalized_chars_fix x d hd)
  rw [hmap, normalize_label_data x]
  exact stripUnderscores_idem _

/-- C5 counterexample: normalizing `"a  b"` (two adjacent spaces) yields
`"a__b"`, a token with two consecutive underscores.  This refutes the claim
that the output never contains two consecutive underscores. -/
theorem normalize_label_double_underscore_cex :
    normalize_label "a  b" = "a__b"
      ∧ (normalize_label "a  b").data = ['a', '_', '_', 'b'] :=
  ⟨by decide, by decide⟩

/-- C5 (amended): for every input string, `normalize_label` returns a token
containing only underscores and ASCII alphanumerics fixed by lowercasing —
consecutive underscores may occur when separator characters are adjacent —
with no leading or trailing underscore; empty input returns the empty token. -/
theorem normalize_label_shape (x : String) :
    (normalize_label x).data.all lowerAlnumOrUnderscore = true
      ∧ isUnderscore ((normalize_label x).data.head?.getD 'a') = false
      ∧ isUnderscore ((normalize_label x).data.getLast?.getD 'a') = false
      ∧ normalize_label "" = "" :=
  ⟨List.all_eq_true.2 (normalized_chars_shape x),
   head_not_underscore (normalize_label_dropWhile_eq_self x),
   getLast_not_underscore (normalize_label_rdropWhile_eq_self x),
   by decide⟩

/-! ## Alias table and metadata catalog (app.py lines 143-466)

`MACHINE_METADATA` is a Python dict literal from canonical exercise keys to
display metadata; only its key list matters for the checked claims, so the
embedding records the keys in literal order.  `ALIASES` is a dict literal from
normalized model-output labels to canonical keys, extended by the loop

`for _key in MACHINE_METADATA.keys(): ALIASES.setdefault(_key, _key)`

Python dicts are modelled as association lists in insertion order with
first-match lookup (both literals are duplicate-free), `dict.get(k, d)` as
`(List.lookup k m).getD d`, and `dict.setdefault(k, k)` as an append guarded
by a lookup. -/

/-- Key list of the `MACHINE_METADATA` dict literal (app.py line 143), in
source order. -/
def MACHINE_METADATA_KEYS : List String := [
  "bench_press", "incline_bench_press", "decline_bench_press",
  "dumbbell_bench_press", "dumbbell_fly", "cable_crossover",
  "pec_deck_machine", "chest_press_machine", "lying_chest_press_machine",
  "push_up", "incline_dumbbell_press", "decline_dumbbell_press",
  "cable_fly", "incline_cable_fly", "pull_up",
  "weighted_pull_up", "chin_up", "lat_pulldown",
  "wide_grip_pulldown", "close_grip_pulldown", "reverse_grip_pulldown",
  "straight_arm_pulldown", "seated_row", "seated_machine_row",
  "t_bar_row", "chest_supported_t_bar_row", "bent_over_row",
  "smith_machine_bent_over_row", "one_arm_dumbbell_row", "chest_supported_row",
  "lat_pullover_machine", "deadlift", "romanian_deadlift",
  "sumo_deadlift", "back_extension", "shoulder_press_machine",
  "overhead_press", "arnold_press", "dumbbell_shoulder_press",
  "front_raise", "lateral_raise", "lateral_raise_machine",
  "rear_delt_fly", "rear_delt_cable_fly", "reverse_pec_deck",
  "upright_row", "cable_face_pull", "shrugs",
  "cable_lateral_raise", "barbell_curl", "dumbbell_curl",
  "alternating_dumbbell_curl", "hammer_curl", "preacher_curl",
  "single_arm_preacher_curl", "cable_curl", "cable_hammer_curl",
  "bayesian_curl", "incline_dumbbell_curl", "ez_bar_curl",
  "reverse_curl", "spider_curl", "forearm_curl",
  "reverse_forearm_curl", "tricep_pushdown", "tricep_pushdown_rope",
  "overhead_tricep_extension", "cable_overhead_extension", "close_grip_bench_press",
  "dips", "weighted_dip", "seated_dip_machine",
  "skull_crusher", "rope_pushdown", "single_arm_cable_pushdown",
  "diamond_push_up", "squat", "pendulum_squat",
  "hack_squat", "leg_press", "leg_extension",
  "bulgarian_split_squat", "smith_machine_squat", "v_squat",
  "smith_machine_bench_press", "smith_machine_incline_bench_press", "smith_machine_decline_bench_press",
  "smith_machine_shoulder_press", "smith_machine_step_up", "cable_step_up",
  "goblet_squat", "walking_lunges", "lying_leg_curl",
  "seated_leg_curl_machine", "stiff_leg_deadlift", "good_morning",
  "hip_thrust", "hip_thrust_machine", "smith_machine_hip_thrust",
  "smith_machine_donkey_kick", "cable_kickback", "abductor_machine",
  "adductor_machine", "standing_calf_raise", "seated_calf_raise",
  "leg_press_calf_raise", "calf_press_machine", "donkey_calf_raise",
  "crunch", "cable_crunch", "decline_sit_up",
  "hanging_leg_raise", "knee_raise", "russian_twist",
  "rotary_torso_machine", "ab_crunch_machine", "running",
  "walking", "stairmaster", "rowing_machine",
  "hometrainer", "elliptical_machine", "skierg",
  "chinning_dipping", "leg_raise_tower", "smith_machine",
  "dumbbell"]

/-- The hand-written `ALIASES` dict literal (app.py line 321), in source
order, before the `setdefault` loop. -/
def ALIASES_HAND : List (String × String) := [
  ("bench_press", "bench_press"), ("flat_bench_press", "bench_press"),
  ("flat_bench_press_machine", "bench_press"), ("bench_machine", "bench_press"),
  ("flat_bench_machine", "bench_press"), ("incline_bench_press", "incline_bench_press"),
  ("decline_bench_press", "decline_bench_press"), ("dumbbell_bench_press", "dumbbell_bench_press"),
  ("dumbbell_fly", "dumbbell_fly"), ("chest_fly_machine", "pec_deck_machine"),
  ("chest_fly", "dumbbell_fly"), ("cable_crossover", "cable_crossover"),
  ("pec_deck", "pec_deck_machine"), ("chest_press", "chest_press_machine"),
  ("lying_chest_press_machine", "lying_chest_press_machine"), ("push_up", "push_up"),
  ("incline_dumbbell_press", "incline_dumbbell_press"), ("decline_dumbbell_press", "decline_dumbbell_press"),
  ("lat_pulldown", "lat_pulldown"), ("lat_pulldown_machine", "lat_pulldown"),
  ("lat_pull_down", "lat_pulldown"), ("lat_pull_down_machine", "lat_pulldown"),
  ("wide_grip_pulldown", "wide_grip_pulldown"), ("close_grip_pulldown", "close_grip_pulldown"),
  ("straight_arm_pulldown", "straight_arm_pulldown"), ("pull_up", "pull_up"),
  ("chin_up", "chin_up"), ("seated_row", "seated_row"),
  ("seated_machine_row", "seated_machine_row"), ("t_bar_row", "t_bar_row"),
  ("bent_over_row", "bent_over_row"), ("one_arm_dumbbell_row", "one_arm_dumbbell_row"),
  ("chest_supported_row", "chest_supported_row"), ("lat_pullover_machine", "lat_pullover_machine"),
  ("deadlift", "deadlift"), ("romanian_deadlift", "romanian_deadlift"),
  ("sumo_deadlift", "sumo_deadlift"), ("stiff_leg_deadlift", "stiff_leg_deadlift"),
  ("stiff_legged_deadlift", "stiff_leg_deadlift"), ("shoulder_press_machine", "shoulder_press_machine"),
  ("shoulder_press", "shoulder_press_machine"), ("overhead_press", "overhead_press"),
  ("arnold_press", "arnold_press"), ("dumbbell_shoulder_press", "dumbbell_shoulder_press"),
  ("front_raise", "front_raise"), ("lateral_raise", "lateral_raise"),
  ("lateral_raises_machine", "lateral_raise_machine"), ("lateral_raise_machine", "lateral_raise_machine"),
  ("cable_lateral_raise", "lateral_raise_machine"), ("rear_delt_fly", "rear_delt_fly"),
  ("rear_delt_cable_fly", "rear_delt_cable_fly"), ("reverse_pec_deck", "reverse_pec_deck"),
  ("upright_row", "upright_row"), ("cable_face_pull", "cable_face_pull"),
  ("arm_curl_machine", "preacher_curl"), ("bicep_curl_machine", "preacher_curl"),
  ("curl_machine", "preacher_curl"), ("barbell_curl", "barbell_curl"),
  ("dumbbell_curl", "dumbbell_curl"), ("alternating_dumbbell_curl", "alternating_dumbbell_curl"),
  ("hammer_curl", "hammer_curl"), ("machine_bicep_curl", "preacher_curl"),
  ("preacher_curl", "preacher_curl"), ("preacher_curl_machine", "preacher_curl"),
  ("single_arm_preacher_curl", "single_arm_preacher_curl"), ("cable_curl", "cable_curl"),
  ("incline_dumbbell_curl", "incline_dumbbell_curl"), ("ez_bar_curl", "ez_bar_curl"),
  ("reverse_curl", "reverse_curl"), ("spider_curl", "spider_curl"),
  ("tricep_pushdown", "tricep_pushdown"), ("tricep_pushdown_bar", "tricep_pushdown"),
  ("tricep_pushdown_rope", "tricep_pushdown_rope"), ("overhead_tricep_extension", "overhead_tricep_extension"),
  ("cable_overhead_extension", "cable_overhead_extension"), ("close_grip_bench_press", "close_grip_bench_press"),
  ("dips", "dips"), ("dip", "dips"),
  ("seated_dip_machine", "seated_dip_machine"), ("skull_crusher", "skull_crusher"),
  ("rope_pushdown", "tricep_pushdown_rope"), ("single_arm_cable_pushdown", "single_arm_cable_pushdown"),
  ("diamond_push_up", "diamond_push_up"), ("leg_press", "leg_press"),
  ("leg_press_machine", "leg_press"), ("squat", "squat"),
  ("pendulum_squat", "pendulum_squat"), ("hack_squat", "hack_squat"),
  ("leg_extension", "leg_extension"), ("leg_extension_machine", "leg_extension"),
  ("bulgarian_split_squat", "bulgarian_split_squat"), ("smith_machine", "smith_machine"),
  ("smith", "smith_machine"), ("chinning_dipping", "chinning_dipping"),
  ("leg_raise_tower", "leg_raise_tower"), ("dumbbell", "dumbbell"),
  ("smith_machine_squat", "smith_machine_squat"), ("smith_machine_bench_press", "smith_machine_bench_press"),
  ("smith_machine_flat_bench_press", "smith_machine_bench_press"), ("smith_machine_incline_bench_press", "smith_machine_incline_bench_press"),
  ("smith_machine_decline_bench_press", "smith_machine_decline_bench_press"), ("smith_machine_step_up", "smith_machine_step_up"),
  ("cable_step_up", "cable_step_up"), ("goblet_squat", "goblet_squat"),
  ("lying_leg_curl", "lying_leg_curl"), ("reg_curl_machine", "lying_leg_curl"),
  ("lying_leg_curl_machine", "lying_leg_curl"), ("seated_leg_curl_machine", "seated_leg_curl_machine"),
  ("seated_leg_curl", "seated_leg_curl_machine"), ("good_morning", "good_morning"),
  ("hip_thrust", "hip_thrust"), ("hip_thruster", "hip_thrust"),
  ("hip_truster", "hip_thrust"), ("hip_thrust_machine", "hip_thrust_machine"),
  ("smith_machine_donkey_kick", "smith_machine_donkey_kick"), ("cable_kickback", "cable_kickback"),
  ("hip_abductor_machine", "abductor_machine"), ("hip_abductor", "abductor_machine"),
  ("abductor_machine", "abductor_machine"), ("adductor_machine", "adductor_machine"),
  ("standing_calf_raise", "standing_calf_raise"), ("seated_calf_raise", "seated_calf_raise"),
  ("leg_press_calf_raise", "leg_press_calf_raise"), ("donkey_calf_raise", "donkey_calf_raise"),
  ("crunch", "crunch"), ("cable_crunch", "cable_crunch"),
  ("decline_sit_up", "decline_sit_up"), ("hanging_leg_raise", "hanging_leg_raise"),
  ("knee_raise", "knee_raise"), ("russian_twist", "russian_twist"),
  ("rotary_torso_machine", "rotary_torso_machine"), ("rotary_torso", "rotary_torso_machine"),
  ("torso_machine", "rotary_torso_machine"), ("torso_rotation_machine", "rotary_torso_machine"),
  ("forearm_curl", "forearm_curl"), ("reverse_forearm_curl", "reverse_forearm_curl"),
  ("wrist_curl", "forearm_curl"), ("reverse_wrist_curl", "reverse_forearm_curl"),
  ("back_extension", "back_extension"), ("hyperextension", "back_extension")]

/-- Embedding of `ALIASES.setdefault(k, k)` on the association-list model. -/
def setdefaultSelf (m : List (String × String)) (k : String) :
    List (String × String) :=
  match m.lookup k with
  | some _ => m
  | none => m ++ [(k, k)]

/-- The final `ALIASES` table: the hand-written literal extended by the
`setdefault` loop over the metadata keys (app.py lines 465-466). -/
def ALIASES : List (String × String) :=
  MACHINE_METADATA_KEYS.foldl setdefaultSelf ALIASES_HAND

/-- Embedding of alias resolution `ALIASES.get(norm, norm)` as used by
`exercise_info` (app.py line 2058). -/
def resolve (norm : String) : String :=
  (ALIASES.lookup norm).getD norm

/-! ### Structure of the `setdefault` fold -/

/-- An existing binding survives the whole `setdefault` loop. -/
theorem lookup_foldl_setdefault_of_some {k : String} {v : String} :
    ∀ (ks : List String) (m : List (String × String)), m.lookup k = some v →
      (ks.foldl setdefaultSelf m).lookup k = some v := by
  intro ks
  induction ks with
  | nil => intro m h; exact h
  | cons a t ih =>
    intro m h
    rw [List.foldl_cons]
    apply ih
    unfold setdefaultSelf
    cases ha : m.lookup a with
    | some w => exact h
    | none => rw [List.lookup_append, h]; rfl

/-- A key of the loop list that the table does not yet bind ends up bound to
itself. -/
theorem lookup_foldl_setdefault_of_mem {k : String} :
    ∀ (ks : List String) (m : List (String × String)), k ∈ ks →
      m.lookup k = none → (ks.foldl setdefaultSelf m).lookup k = some k := by
  intro ks
  induction ks with
  | nil => intro m h; simp at h
  | cons a t ih =>
    intro m hmem h
    rw [List.foldl_cons]
    by_cases hak : a = k
    · subst hak
      apply lookup_foldl_setdefault_of_some
      unfold setdefaultSelf
      rw [h, List.lookup_append, h]
      simp
    · have hmem2 : k ∈ t := by
        cases List.mem_cons.1 hmem with
        | inl heq => exact absurd heq.symm hak
        | inr ht => exact ht
      apply ih (setdefaultSelf m a) hmem2
      unfold setdefaultSelf
      cases ha : m.lookup a with
      | some w => exact h
      | none =>
        rw [List.lookup_append, h, Option.none_or, List.lookup_cons]
        have hbeq : (k == a) = false := beq_eq_false_iff_ne.mpr (Ne.symm hak)
        rw [hbeq]
        rfl

/-! ### Claim theorems for alias resolution -/

/-- C6: alias resolution is a total function with identity fallback — for
every normalized label `x` there is a result `y`; either the binding `(x, y)`
is in the final alias table, or `x` is absent from the table and `y = x`. -/
theorem resolve_total (x : String) :
    ∃ y, resolve x = y
      ∧ ((x, y) ∈ ALIASES ∨ (ALIASES.lookup x = none ∧ y = x)) := by
  cases h : ALIASES.lookup x with
  | none => exact ⟨x, by rw [resolve, h]; rfl, Or.inr ⟨rfl, rfl⟩⟩
  | some v =>
    refine ⟨v, by rw [resolve, h]; rfl, Or.inl ?_⟩
    obtain ⟨l₁, l₂, hsplit, -⟩ := List.lookup_eq_some_iff.1 h
    rw [hsplit]
    simp

/-- C7 counterexample: `"cable_lateral_raise"` is a key of the metadata
catalog, yet the alias table resolves it to `"lateral_raise_machine"`, not to
itself — the hand-written entry wins over the `setdefault` identity entry.
This refutes the claim that every metadata key is a fixed point of `resolve`. -/
theorem metadata_key_not_fixed_cex :
    "cable_lateral_raise" ∈ MACHINE_METADATA_KEYS
      ∧ resolve "cable_lateral_raise" = "lateral_raise_machine"
      ∧ resolve "cable_lateral_raise" ≠ "cable_lateral_raise" := by
  have hhand : ALIASES_HAND.lookup "cable_lateral_raise"
      = some "lateral_raise_machine" := by decide
  have hfinal := lookup_foldl_setdefault_of_some MACHINE_METADATA_KEYS
    ALIASES_HAND hhand
  have hres : resolve "cable_lateral_raise" = "lateral_raise_machine" := by
    rw [resolve, ALIASES, hfinal]; rfl
  exact ⟨by decide, hres, by rw [hres]; decide⟩

/-- C7 (amended): every key of the metadata catalog that the hand-written
alias table does not already bind is a fixed point of `resolve` (the
`setdefault` loop adds the identity entry); metadata keys that do carry a
hand-written alias keep that binding, which can differ from the identity
(counterexample: `cable_lateral_raise`). -/
theorem metadata_key_fixed_of_not_hand (k : String)
    (hmem : k ∈ MACHINE_METADATA_KEYS)
    (hhand : ALIASES_HAND.lookup k = none) :
    resolve k = k := by
  have hfinal := lookup_foldl_setdefault_of_mem MACHINE_METADATA_KEYS
    ALIASES_HAND hmem hhand
  rw [resolve, ALIASES, hfinal]
  rfl

/-- Witness for the amended C7 at the concrete metadata key `"cable_fly"`,
which has no hand-written alias entry. -/
theorem metadata_key_fixed_of_not_hand_witness :
    "cable_fly" ∈ MACHINE_METADATA_KEYS
      ∧ ALIASES_HAND.lookup "cable_fly" = none
      ∧ resolve "cable_fly" = "cable_fly" :=
  ⟨by decide, by decide,
   metadata_key_fixed_of_not_hand "cable_fly" (by decide) (by decide)⟩

/-- C8: the raw label `"Lat Pull Down"` normalizes to `"lat_pull_down"`, and
alias resolution maps `"lat_pull_down"` to the canonical `"lat_pulldown"`. -/
theorem lat_pull_down_resolution :
    normalize_label "Lat Pull Down" = "lat_pull_down"
      ∧ resolve "lat_pull_down" = "lat_pulldown" := by
  have hhand : ALIASES_HAND.lookup "lat_pull_down" = some "lat_pulldown" := by
    decide
  have hfinal := lookup_foldl_setdefault_of_some MACHINE_METADATA_KEYS
    ALIASES_HAND hhand
  exact ⟨by decide, by rw [resolve, ALIASES, hfinal]; rfl⟩

/-! ## Muscle-name normalization (`normalize_muscles`, app.py lines 126-136)

Python source:

```
seen = set()
result = []
for m in muscles:
    key = (m or "").strip().lower()
    key = MUSCLE_SYNONYMS.get(key, key)
    if key in ALLOWED_MUSCLES and key not in seen:
        seen.add(key)
        result.append(key.capitalize())
return result
```

The `seen` set is modelled as a list accumulator; `str.capitalize()` uppercases
the first character and lowercases the rest. -/

/-- The `ALLOWED_MUSCLES` set literal (app.py line 104), in source order. -/
def ALLOWED_MUSCLES : List String :=
  ["back", "chest", "shoulders", "biceps", "triceps", "quads", "hamstrings",
   "calves", "abs", "glutes", "forearms", "cardio"]

/-- The `MUSCLE_SYNONYMS` dict literal (app.py lines 116-124). -/
def MUSCLE_SYNONYMS : List (String × String) :=
  [("lats", "back"), ("lat", "back"), ("rear delts", "shoulders"),
   ("delts", "shoulders"), ("core", "abs"), ("bovenste borst", "chest"),
   ("onderste borst", "chest")]

/-- Embedding of `str.strip()` (whitespace strip) on a character list. -/
def stripWhitespace (l : List Char) : List Char :=
  (l.dropWhile Char.isWhitespace).rdropWhile Char.isWhitespace

/-- Embedding of `str.capitalize()`: first character uppercased, the rest
lowercased. -/
def pyCapitalize (s : String) : String :=
  match s.data with
  | [] => ⟨[]⟩
  | c :: t => ⟨c.toUpper :: t.map Char.toLower⟩

/-- The per-element key computation of `normalize_muscles`:
`key = (m or "").strip().lower(); key = MUSCLE_SYNONYMS.get(key, key)`. -/
def musclesKey (m : String) : String :=
  (MUSCLE_SYNONYMS.lookup ⟨(stripWhitespace m.data).map Char.toLower⟩).getD
    ⟨(stripWhitespace m.data).map Char.toLower⟩

/-- The loop of `normalize_muscles`, with the `seen` set as an accumulator. -/
def normMusclesGo : List String → List String → List String
  | [], _ => []
  | m :: rest, seen =>
    if musclesKey m ∈ ALLOWED_MUSCLES ∧ musclesKey m ∉ seen then
      pyCapitalize (musclesKey m) :: normMusclesGo rest (musclesKey m :: seen)
    else normMusclesGo rest seen

/-- Embedding of `normalize_muscles` (app.py lines 126-136). -/
def normalize_muscles (muscles : List String) : List String :=
  normMusclesGo muscles []

/-- First-occurrence deduplication with an accumulator of already-seen keys,
used to state the order clause of claim C10. -/
def dedupFirstGo : List String → List String → List String
  | [], _ => []
  | k :: rest, seen =>
    if k ∈ seen then dedupFirstGo rest seen
    else k :: dedupFirstGo rest (k :: seen)

/-- First-occurrence deduplication of a key list. -/
def dedupFirst (l : List String) : List String := dedupFirstGo l []

/-- The muscle loop is the filter-dedup-capitalize pipeline: allowed keys in
order of first occurrence, capitalized. -/
theorem normMusclesGo_eq : ∀ (l : List String) (seen : List String),
    normMusclesGo l seen
      = (dedupFirstGo ((l.map musclesKey).filter
          (fun k => decide (k ∈ ALLOWED_MUSCLES))) seen).map pyCapitalize := by
  intro l
  induction l with
  | nil => intro seen; rfl
  | cons m rest ih =>
    intro seen
    by_cases hA : musclesKey m ∈ ALLOWED_MUSCLES
    · by_cases hS : musclesKey m ∈ seen
      · simp [normMusclesGo, hA, hS, List.filter_cons, dedupFirstGo, ih]
      · simp [normMusclesGo, hA, hS, List.filter_cons, dedupFirstGo, ih]
    · simp [normMusclesGo, hA, List.filter_cons, ih]

/-- Elements produced by the deduplication are elements of the input. -/
theorem dedupFirstGo_subset : ∀ (l seen : List String) (k : String),
    k ∈ dedupFirstGo l seen → k ∈ l := by
  intro l
  induction l with
  | nil => intro seen k h; simp [dedupFirstGo] at h
  | cons a rest ih =>
    intro seen k h
    rw [dedupFirstGo] at h
    by_cases ha : a ∈ seen
    · rw [if_pos ha] at h
      exact List.mem_cons_of_mem a (ih seen k h)
    · rw [if_neg ha] at h
      cases List.mem_cons.1 h with
      | inl heq => exact heq ▸ List.mem_cons_self a rest
      | inr hrest => exact List.mem_cons_of_mem a (ih (a :: seen) k hrest)

/-- The deduplicated list has no duplicates and avoids the accumulator. -/
theorem dedupFirstGo_nodup : ∀ (l seen : List String),
    (dedupFirstGo l seen).Nodup ∧ ∀ k ∈ dedupFirstGo l seen, k ∉ seen := by
  intro l
  induction l with
  | nil => intro seen; exact ⟨List.nodup_nil, by simp [dedupFirstGo]⟩
  | cons a rest ih =>
    intro seen
    rw [dedupFirstGo]
    by_cases ha : a ∈ seen
    · rw [if_pos ha]
      exact ih seen
    · rw [if_neg ha]
      obtain ⟨hnd, hav⟩ := ih (a :: seen)
      refine ⟨List.nodup_cons.2 ⟨fun hmem => ?_, hnd⟩, ?_⟩
      · exact (hav a hmem) (List.mem_cons_self a seen)
      · intro k hk
        cases List.mem_cons.1 hk with
        | inl heq => exact heq ▸ ha
        | inr hrest => exact fun hks => (hav k hrest) (List.mem_cons_of_mem a hks)

/-- Deduplication never lengthens a list. -/
theorem dedupFirstGo_length : ∀ (l seen : List String),
    (dedupFirstGo l seen).length ≤ l.length := by
  intro l
  induction l with
  | nil => intro seen; exact Nat.le_refl 0
  | cons a rest ih =>
    intro seen
    rw [dedupFirstGo]
    by_cases ha : a ∈ seen
    · rw [if_pos ha]
      exact Nat.le_succ_of_le (ih seen)
    · rw [if_neg ha]
      simpa using ih (a :: seen)

/-- Capitalization is injective on the twelve allowed muscle names. -/
theorem pyCapitalize_inj_on_allowed :
    ∀ a ∈ ALLOWED_MUSCLES, ∀ b ∈ ALLOWED_MUSCLES,
      pyCapitalize a = pyCapitalize b → a = b := by decide

/-- C10: `normalize_muscles` returns a duplicate-free list; each element is
the capitalization of an allowed muscle name obtained from an input element
by strip-lowercase-synonym mapping; elements appear in order of first
occurrence of their key among the allowed keys of the input (the pipeline
equation); and the output is never longer than the input. -/
theorem normalize_muscles_spec (l : List String) :
    (normalize_muscles l).Nodup
      ∧ (∀ y ∈ normalize_muscles l, ∃ m ∈ l,
          musclesKey m ∈ ALLOWED_MUSCLES ∧ y = pyCapitalize (musclesKey m))
      ∧ normalize_muscles l
          = (dedupFirst ((l.map musclesKey).filter
              (fun k => decide (k ∈ ALLOWED_MUSCLES)))).map pyCapitalize
      ∧ (normalize_muscles l).length ≤ l.length := by
  have hpipe := normMusclesGo_eq l []
  have hkeys : ∀ k ∈ dedupFirstGo ((l.map musclesKey).filter
      (fun k => decide (k ∈ ALLOWED_MUSCLES))) [], k ∈ ALLOWED_MUSCLES := by
    intro k hk
    have hmemf := dedupFirstGo_subset _ [] k hk
    have := List.of_mem_filter hmemf
    simpa using this
  refine ⟨?_, ?_, hpipe, ?_⟩
  · rw [normalize_muscles, hpipe]
    refine List.Nodup.map_on ?_ (dedupFirstGo_nodup _ []).1
    intro a ha b hb hf
    exact pyCapitalize_inj_on_allowed a (hkeys a ha) b (hkeys b hb) hf
  · intro y hy
    rw [normalize_muscles, hpipe] at hy
    obtain ⟨k, hk, hky⟩ := List.mem_map.1 hy
    have hmemf := dedupFirstGo_subset _ [] k hk
    obtain ⟨m, hm, hmk⟩ := List.mem_map.1 (List.mem_of_mem_filter hmemf)
    exact ⟨m, hm, hmk ▸ hkeys k hk, by rw [hmk, hky]⟩
  · rw [normalize_muscles, hpipe, List.length_map]
    calc (dedupFirstGo _ []).length
        ≤ ((l.map musclesKey).filter (fun k => decide (k ∈ ALLOWED_MUSCLES))).length :=
          dedupFirstGo_length _ []
      _ ≤ (l.map musclesKey).length := List.length_filter_le _ _
      _ = l.length := List.length_map _ _

/-! ## Recognition endpoint (`recognize_exercise`, app.py lines 1679-1856)

The `/api/recognize-exercise` route, in branch order:

1. `OPTIONS` requests get `({}, 200)`.
2. A credit pre-check can return `({"error": "no_credits", ...}, 403)`.
3. Inside a `try` block: if OpenAI is unavailable, the image file is missing,
   the API key is unset, or the image bytes are empty, the route returns
   `({"exercise": "unknown exercise"}, 200)`.
4. The OpenAI vision call either raises (caught by the outer `except`, again
   returning the unknown-exercise 200 body), yields no choices / no content
   (same body), or yields a content string that is cleaned; a cleaned name of
   `"unknown exercise"`, `"unknown"`, or fewer than 2 stripped characters is
   replaced by `"unknown exercise"`.
5. If a user id was recovered, a credit is deducted: a "No credits remaining"
   `ValueError` returns the 403 no-credits body, any other exception is
   re-raised into the outer `except` (unknown-exercise 200 body), success
   attaches `credits_remaining` to the 200 result.

External effects (Supabase, OpenAI, the multipart parser) are modelled as an
input record fixing the outcome of each interaction; the route body itself is
embedded faithfully below. -/

/-- Outcome of the OpenAI vision call. -/
inductive VisionOutcome where
  | raised
  | noContent
  | content (s : String)
deriving DecidableEq

/-- Outcome of `_deduct_credit_for_user`. -/
inductive DeductOutcome where
  | ok (creditsRemaining : Nat)
  | noCredits
  | otherError
deriving DecidableEq

/-- One request to `/api/recognize-exercise` with the outcomes of all
external interactions fixed. -/
structure RecRequest where
  isOptions : Bool
  creditPrecheckBlocks : Bool
  userId : Option String
  openaiAvailable : Bool
  imageFile : Option (List Nat)
  apiKeyPresent : Bool
  vision : VisionOutcome
  deduct : DeductOutcome

/-- Response bodies the route can build: `{}`, the no-credits error object,
or `{"exercise": name}` optionally extended with `credits_remaining`. -/
inductive RespBody where
  | emptyJson
  | noCredits
  | exercise (name : String) (creditsRemaining : Option Nat)
deriving DecidableEq

/-- Embedding of `str.replace(pat, rep)` on character lists (all occurrences,
left to right, non-overlapping); the fuel argument is the input length, enough
because every step consumes at least one input character (every pattern used
by the route is nonempty). -/
def replaceChars (pat rep : List Char) : Nat → List Char → List Char
  | _, [] => []
  | 0, l => l
  | Nat.succ fuel, c :: rest =>
    if pat ≠ [] ∧ pat.isPrefixOf (c :: rest) then
      rep ++ replaceChars pat rep fuel ((c :: rest).drop pat.length)
    else c :: replaceChars pat rep fuel rest

/-- Embedding of `str.replace` on strings. -/
def pyReplace (s pat rep : String) : String :=
  ⟨replaceChars pat.data rep.data s.data.length s.data⟩

/-- The character set of the route's `strip('"\x27.,;:!?')` call. -/
def STRIP_PUNCT : List Char := "\x22\x27.,;:!?".data

/-- Embedding of `str.strip(chars)`: remove the given characters from both
ends. -/
def stripChars (cs : List Char) (l : List Char) : List Char :=
  (l.dropWhile cs.contains).rdropWhile cs.contains

/-- Embedding of `str.split()` (split on whitespace runs, no empty parts),
with the current word accumulated in reverse. -/
def splitWsAux : List Char → List Char → List (List Char)
  | [], acc => if acc.isEmpty then [] else [acc.reverse]
  | c :: rest, acc =>
    if c.isWhitespace then
      if acc.isEmpty then splitWsAux rest [] else acc.reverse :: splitWsAux rest []
    else splitWsAux rest (c :: acc)

/-- Embedding of the response cleaning chain of the route:
strip, lower, punctuation strip, the twelve prefix-phrase `replace` calls,
and `" ".join(name.split())`. -/
def cleanExerciseName (responseContent : String) : String :=
  let e0 : List Char := stripWhitespace responseContent.data
  let e1 : List Char := e0.map Char.toLower
  let e2 : List Char := stripChars STRIP_PUNCT e1
  let r := fun (l : List Char) (pat : String) => (pyReplace ⟨l⟩ pat "").data
  let e3 := r (r (r (r (r (r e2 "dit is een ") "dit is ") "this is a ") "this is ")
    "looks like ") "appears to be "
  let e4 := r (r (r (r (r (r e3 "i see a ") "i see ") "it\x27s a ") "it is a ")
    "probably a ") "likely a "
  ⟨List.intercalate [' '] (splitWsAux e4 [])⟩

/-- Embedding of the `/api/recognize-exercise` route body
(app.py lines 1679-1856), returning the HTTP status and response body. -/
def recognize_exercise (r : RecRequest) : Nat × RespBody :=
  if r.isOptions then (200, RespBody.emptyJson)
  else if r.creditPrecheckBlocks then (403, RespBody.noCredits)
  else if !r.openaiAvailable then (200, RespBody.exercise "unknown exercise" none)
  else match r.imageFile with
  | none => (200, RespBody.exercise "unknown exercise" none)
  | some bytes =>
    if !r.apiKeyPresent then (200, RespBody.exercise "unknown exercise" none)
    else if bytes.isEmpty then (200, RespBody.exercise "unknown exercise" none)
    else match r.vision with
    | VisionOutcome.raised => (200, RespBody.exercise "unknown exercise" none)
    | VisionOutcome.noContent => (200, RespBody.exercise "unknown exercise" none)
    | VisionOutcome.content s =>
      if s = "" then (200, RespBody.exercise "unknown exercise" none)
      else
        let name0 := cleanExerciseName s
        let name :=
          if name0 = "unknown exercise" ∨ name0 = "unknown" then "unknown exercise"
          else if (stripWhitespace name0.data).length < 2 then "unknown exercise"
          else name0
        match r.userId with
        | none => (200, RespBody.exercise name none)
        | some _ =>
          match r.deduct with
          | DeductOutcome.ok n => (200, RespBody.exercise name (some n))
          | DeductOutcome.noCredits => (403, RespBody.noCredits)
          | DeductOutcome.otherError => (200, RespBody.exercise "unknown exercise" none)

/-- The failure conditions of claim C9: runtime unavailable, missing image,
missing API key, empty image bytes, raised vision call, empty model response,
or an exception re-raised out of the credit deduction. -/
def FailPath (r : RecRequest) : Prop :=
  r.openaiAvailable = false
    ∨ r.imageFile = none
    ∨ r.apiKeyPresent = false
    ∨ r.imageFile = some []
    ∨ r.vision = VisionOutcome.raised
    ∨ r.vision = VisionOutcome.noContent
    ∨ r.vision = VisionOutcome.content ""
    ∨ (r.userId ≠ none ∧ r.deduct = DeductOutcome.otherError)

/-- Failures at the vision-call stage or inside the credit deduction also
yield the plain unknown-exercise success response. -/
theorem visionStageUnknown (r : RecRequest)
    (hopt : r.isOptions = false) (hpre : r.creditPrecheckBlocks = false)
    (hfail : r.vision = VisionOutcome.raised
      ∨ r.vision = VisionOutcome.noContent
      ∨ r.vision = VisionOutcome.content ""
      ∨ (r.userId ≠ none ∧ r.deduct = DeductOutcome.otherError)) :
    recognize_exercise r = (200, RespBody.exercise "unknown exercise" none) := by
  cases hoa : r.openaiAvailable with
  | false => simp [recognize_exercise, hopt, hpre, hoa]
  | true =>
  cases himg : r.imageFile with
  | none => simp [recognize_exercise, hopt, hpre, hoa, himg]
  | some bytes =>
  cases hkey : r.apiKeyPresent with
  | false => simp [recognize_exercise, hopt, hpre, hoa, himg, hkey]
  | true =>
  cases hbe : bytes.isEmpty with
  | true => simp [recognize_exercise, hopt, hpre, hoa, himg, hkey, hbe]
  | false =>
  rcases hfail with h | h | h | h
  · simp [recognize_exercise, hopt, hpre, hoa, himg, hkey, hbe, h]
  · simp [recognize_exercise, hopt, hpre, hoa, himg, hkey, hbe, h]
  · simp [recognize_exercise, hopt, hpre, hoa, himg, hkey, hbe, h]
  · obtain ⟨hu, hd⟩ := h
    cases hvis : r.vision with
    | raised => simp [recognize_exercise, hopt, hpre, hoa, himg, hkey, hbe, hvis]
    | noContent => simp [recognize_exercise, hopt, hpre, hoa, himg, hkey, hbe, hvis]
    | content s =>
      by_cases hs : s = ""
      · simp [recognize_exercise, hopt, hpre, hoa, himg, hkey, hbe, hvis, hs]
      · cases huid : r.userId with
        | none => exact absurd huid hu
        | some u =>
          simp [recognize_exercise, hopt, hpre, hoa, himg, hkey, hbe, hvis, hs,
            huid, hd]

/-- The only response of the route whose status is not 200 is the 403
no-credits error. -/
theorem recognize_non200_is_noCredits (r : RecRequest)
    (h : (recognize_exercise r).1 ≠ 200) :
    recognize_exercise r = (403, RespBody.noCredits) := by
  cases hopt : r.isOptions with
  | true => simp [recognize_exercise, hopt] at h
  | false =>
  cases hpre : r.creditPrecheckBlocks with
  | true => simp [recognize_exercise, hopt, hpre]
  | false =>
  cases hoa : r.openaiAvailable with
  | false => simp [recognize_exercise, hopt, hpre, hoa] at h
  | true =>
  cases himg : r.imageFile with
  | none => simp [recognize_exercise, hopt, hpre, hoa, himg] at h
  | some bytes =>
  cases hkey : r.apiKeyPresent with
  | false => simp [recognize_exercise, hopt, hpre, hoa, himg, hkey] at h
  | true =>
  cases hbe : bytes.isEmpty with
  | true => simp [recognize_exercise, hopt, hpre, hoa, himg, hkey, hbe] at h
  | false =>
  cases hvis : r.vision with
  | raised => simp [recognize_exercise, hopt, hpre, hoa, himg, hkey, hbe, hvis] at h
  | noContent => simp [recognize_exercise, hopt, hpre, hoa, himg, hkey, hbe, hvis] at h
  | content s =>
  by_cases hs : s = ""
  · simp [recognize_exercise, hopt, hpre, hoa, himg, hkey, hbe, hvis, hs] at h
  · cases huid : r.userId with
    | none => simp [recognize_exercise, hopt, hpre, hoa, himg, hkey, hbe, hvis, hs, huid] at h
    | some u =>
      cases hd : r.deduct with
      | ok n =>
        simp [recognize_exercise, hopt, hpre, hoa, himg, hkey, hbe, hvis, hs, huid, hd] at h
      | noCredits =>
        simp [recognize_exercise, hopt, hpre, hoa, himg, hkey, hbe, hvis, hs, huid, hd]
      | otherError =>
        simp [recognize_exercise, hopt, hpre, hoa, himg, hkey, hbe, hvis, hs, huid, hd] at h

/-- Every C9 failure condition yields the plain unknown-exercise success
response. -/
theorem recognize_unknown_of_fail (r : RecRequest)
    (hopt : r.isOptions = false) (hpre : r.creditPrecheckBlocks = false)
    (hfail : FailPath r) :
    recognize_exercise r = (200, RespBody.exercise "unknown exercise" none) := by
  rcases hfail with h | h | h | h | h | h | h | h
  · simp [recognize_exercise, hopt, hpre, h]
  · cases hoa : r.openaiAvailable with
    | false => simp [recognize_exercise, hopt, hpre, hoa]
    | true => simp [recognize_exercise, hopt, hpre, hoa, h]
  · cases hoa : r.openaiAvailable with
    | false => simp [recognize_exercise, hopt, hpre, hoa]
    | true =>
      cases himg : r.imageFile with
      | none => simp [recognize_exercise, hopt, hpre, hoa, himg]
      | some bytes => simp [recognize_exercise, hopt, hpre, hoa, himg, h]
  · cases hoa : r.openaiAvailable with
    | false => simp [recognize_exercise, hopt, hpre, hoa]
    | true =>
      cases hkey : r.apiKeyPresent with
      | false => simp [recognize_exercise, hopt, hpre, hoa, h, hkey]
      | true => simp [recognize_exercise, hopt, hpre, hoa, h, hkey]
  · exact visionStageUnknown r hopt hpre (Or.inl h)
  · exact visionStageUnknown r hopt hpre (Or.inr (Or.inl h))
  · exact visionStageUnknown r hopt hpre (Or.inr (Or.inr (Or.inl h)))
  · exact visionStageUnknown r hopt hpre (Or.inr (Or.inr (Or.inr h)))

/-! ### Claim theorems for the recognition endpoint -/

/-- C1 counterexample: with the inference runtime unavailable the endpoint
returns status 200 with the ordinary success body
`{"exercise": "unknown exercise"}` — indistinguishable from a successful
recognition — rather than any typed `RuntimeUnavailable` /
`NoModelsAvailable` / `NoPrediction` error (no such outcomes exist in the
route). -/
theorem recognize_runtime_unavailable_success_cex :
    recognize_exercise
        ⟨false, false, none, false, some [1], true,
          VisionOutcome.raised, DeductOutcome.ok 0⟩
      = (200, RespBody.exercise "unknown exercise" none)
      ∧ (recognize_exercise
          ⟨false, false, none, false, some [1], true,
            VisionOutcome.raised, DeductOutcome.ok 0⟩).1 = 200 :=
  ⟨by decide, by decide⟩

/-- C1 (amended): failures are absorbed, but not reported as typed errors —
when the inference runtime is unavailable or every step of recognition fails
(the model call raises or produces no content), the caller receives the
normal success result `200 {"exercise": "unknown exercise"}`; the route
defines no `NoModelsAvailable` / `NoPrediction` / `RuntimeUnavailable`
outcomes, and its only error response is the out-of-credits 403. -/
theorem recognize_exercise_absorbs_total_failure (r : RecRequest)
    (hopt : r.isOptions = false) (hpre : r.creditPrecheckBlocks = false)
    (hfail : r.openaiAvailable = false ∨ r.vision = VisionOutcome.raised
      ∨ r.vision = VisionOutcome.noContent) :
    recognize_exercise r = (200, RespBody.exercise "unknown exercise" none) :=
  recognize_unknown_of_fail r hopt hpre
    (match hfail with
     | Or.inl h => Or.inl h
     | Or.inr (Or.inl h) => Or.inr (Or.inr (Or.inr (Or.inr (Or.inl h))))
     | Or.inr (Or.inr h) =>
        Or.inr (Or.inr (Or.inr (Or.inr (Or.inr (Or.inl h))))))

/-- Witness for the amended C1 at a concrete request whose vision call
produced no content. -/
theorem recognize_exercise_absorbs_total_failure_witness :
    recognize_exercise
        ⟨false, false, none, true, some [7], true,
          VisionOutcome.noContent, DeductOutcome.ok 1⟩
      = (200, RespBody.exercise "unknown exercise" none) :=
  recognize_exercise_absorbs_total_failure _ rfl rfl (Or.inr (Or.inr rfl))

/-- C9: for every request that passes the credit pre-check, each failure path
(runtime unavailable, missing image file, missing API key, empty image bytes,
raised vision call, empty model response, or an exception re-raised out of
the credit deduction) returns status 200 with body
`{"exercise": "unknown exercise"}`; and the only non-200 outcome of the
endpoint is the 403 out-of-credits response. -/
theorem recognize_exercise_failure_modes (r : RecRequest) :
    (r.isOptions = false → r.creditPrecheckBlocks = false → FailPath r →
        recognize_exercise r = (200, RespBody.exercise "unknown exercise" none))
      ∧ ((recognize_exercise r).1 ≠ 200 →
          recognize_exercise r = (403, RespBody.noCredits)) :=
  ⟨fun hopt hpre hfail => recognize_unknown_of_fail r hopt hpre hfail,
   fun h => recognize_non200_is_noCredits r h⟩

/-- Witness for C9 at a concrete request with a missing image file. -/
theorem recognize_exercise_failure_modes_witness :
    recognize_exercise
        ⟨false, false, none, true, none, true,
          VisionOutcome.raised, DeductOutcome.ok 3⟩
      = (200, RespBody.exercise "unknown exercise" none) :=
  (recognize_exercise_failure_modes
      ⟨false, false, none, true, none, true,
        VisionOutcome.raised, DeductOutcome.ok 3⟩).1
    rfl rfl (Or.inr (Or.inl rfl))

/-! ## Model cache (spec section 4.3)

The bounded model cache no longer exists in `app.py`: the source states
"Models disabled to save memory - no longer using YOLO models / All model
loading code removed", and the `/predict` endpoint (app.py line 1459) is a
disabled stub returning 503.  The definitions below are therefore modelled
from the spec, which describes `ensureLoaded`, `evictOne` and the FIFO
eviction policy of the removed cache. -/

/-- Modelled from the spec: the `ModelCache` data model — a maximum resident
count and the currently-resident model identities in insertion order (oldest
first); the missing code is the removed YOLO model cache of `app.py`. -/
structure ModelCache where
  cap : Nat
  resident : List String

/-- Modelled from the spec: the outcome of `ensureLoaded`. -/
inductive LoadResult where
  | loaded
  | modelUnavailable
  | runtimeUnavailable
deriving DecidableEq

/-- Modelled from the spec: `evictOne` removes the least-recently-inserted
resident model (insertion-order FIFO, the head of the list). -/
def evictOne (c : ModelCache) : ModelCache :=
  { c with resident := c.resident.tail }

/-- Modelled from the spec: `ensureLoaded` returns the cache unchanged when
the runtime is unavailable, the model is already resident, or its artifact is
missing on disk; otherwise it loads the model, evicting exactly one resident
model first when capacity is already reached. -/
def ensureLoaded (runtimeOk : Bool) (onDisk : String → Bool) (m : String)
    (c : ModelCache) : ModelCache × LoadResult :=
  if !runtimeOk then (c, LoadResult.runtimeUnavailable)
  else if m ∈ c.resident then (c, LoadResult.loaded)
  else if !onDisk m then (c, LoadResult.modelUnavailable)
  else if c.cap ≤ c.resident.length then
    let c2 := evictOne c
    ({ c2 with resident := c2.resident ++ [m] }, LoadResult.loaded)
  else ({ c with resident := c.resident ++ [m] }, LoadResult.loaded)

/-- Modelled from the spec: one public cache operation. -/
inductive CacheOp where
  | ensure (runtimeOk : Bool) (onDisk : String → Bool) (m : String)
  | evict

/-- Application of one public operation to the cache state. -/
def applyOp (c : ModelCache) : CacheOp → ModelCache
  | CacheOp.ensure rt disk m => (ensureLoaded rt disk m c).1
  | CacheOp.evict => evictOne c

/-- Running a sequence of public operations. -/
def runOps (ops : List CacheOp) (c : ModelCache) : ModelCache :=
  ops.foldl applyOp c

/-- The empty cache with capacity `cap`. -/
def initCache (cap : Nat) : ModelCache := ⟨cap, []⟩

/-- One public operation preserves the capacity field and the resident-count
bound (for a positive capacity). -/
theorem applyOp_invariant (c : ModelCache) (op : CacheOp)
    (hcap : 1 ≤ c.cap) (hlen : c.resident.length ≤ c.cap) :
    (applyOp c op).cap = c.cap
      ∧ (applyOp c op).resident.length ≤ c.cap := by
  cases op with
  | evict =>
    refine ⟨rfl, ?_⟩
    show c.resident.tail.length ≤ c.cap
    have htail : c.resident.tail.length = c.resident.length - 1 :=
      List.length_tail _
    omega
  | ensure rt disk m =>
    show ((ensureLoaded rt disk m c).1.cap = c.cap
      ∧ (ensureLoaded rt disk m c).1.resident.length ≤ c.cap)
    rw [ensureLoaded]
    by_cases hrt : (!rt) = true
    · rw [if_pos hrt]; exact ⟨rfl, hlen⟩
    · rw [if_neg hrt]
      by_cases hres : m ∈ c.resident
      · rw [if_pos hres]; exact ⟨rfl, hlen⟩
      · rw [if_neg hres]
        by_cases hdisk : (!disk m) = true
        · rw [if_pos hdisk]; exact ⟨rfl, hlen⟩
        · rw [if_neg hdisk]
          by_cases hfull : c.cap ≤ c.resident.length
          · rw [if_pos hfull]
            refine ⟨rfl, ?_⟩
            have hne : 1 ≤ c.resident.length := Nat.le_trans hcap hfull
            have htail : c.resident.tail.length = c.resident.length - 1 :=
              List.length_tail _
            simp only [evictOne, List.length_append, List.length_cons,
              List.length_nil, htail]
            omega
          · rw [if_neg hfull]
            refine ⟨rfl, ?_⟩
            simp only [List.length_append, List.length_cons, List.length_nil]
            omega

/-- Running any operation sequence preserves capacity and the bound. -/
theorem runOps_invariant (ops : List CacheOp) :
    ∀ (c : ModelCache), 1 ≤ c.cap → c.resident.length ≤ c.cap →
      (runOps ops c).cap = c.cap
        ∧ (runOps ops c).resident.length ≤ c.cap := by
  induction ops with
  | nil => intro c _ hlen; exact ⟨rfl, hlen⟩
  | cons op rest ih =>
    intro c hcap hlen
    obtain ⟨hc1, hl1⟩ := applyOp_invariant c op hcap hlen
    have hstep := ih (applyOp c op) (hc1 ▸ hcap) (hc1 ▸ hl1)
    rw [runOps, List.foldl_cons]
    exact ⟨(hstep.1).trans hc1, hc1 ▸ hstep.2⟩

/-- C2 (spec-modelled): starting from the empty cache with configured
capacity `C ≥ 1`, after any sequence of `ensureLoaded` / `evictOne`
operations the resident count is at most `C`; and whenever capacity is
already reached, a successful `ensureLoaded` of a non-resident model evicts
exactly one resident model — the least-recently-inserted (FIFO head) —
before appending the requested one. -/
theorem cache_capacity_invariant (C : Nat) (hC : 1 ≤ C) :
    (∀ ops : List CacheOp, (runOps ops (initCache C)).resident.length ≤ C)
      ∧ (∀ (c : ModelCache) (disk : String → Bool) (m : String),
          c.resident.length = c.cap → m ∉ c.resident → disk m = true →
          (ensureLoaded true disk m c).1.resident = c.resident.tail ++ [m]) := by
  constructor
  · intro ops
    exact (runOps_invariant ops (initCache C) hC (Nat.zero_le C)).2
  · intro c disk m hfull hres hdisk
    rw [ensureLoaded]
    rw [if_neg (by simp), if_neg hres, if_neg (by simp [hdisk]),
      if_pos (Nat.le_of_eq hfull.symm)]
    rfl

/-- Witness for C2: capacity 2, loading `best`, `best1`, then `best3` keeps
the resident count at 2, and from the full state `["best", "best1"]` loading
`"best3"` evicts the FIFO head, leaving `["best1", "best3"]`. -/
theorem cache_capacity_invariant_witness :
    (runOps [CacheOp.ensure true (fun _ => true) "best",
             CacheOp.ensure true (fun _ => true) "best1",
             CacheOp.ensure true (fun _ => true) "best3"]
        (initCache 2)).resident.length ≤ 2
      ∧ (ensureLoaded true (fun _ => true) "best3"
          ⟨2, ["best", "best1"]⟩).1.resident = ["best1", "best3"] :=
  ⟨(cache_capacity_invariant 2 (by decide)).1 _,
   (cache_capacity_invariant 2 (by decide)).2 ⟨2, ["best", "best1"]⟩
     (fun _ => true) "best3" rfl (by decide) rfl⟩

/-! ## Fusion arbitration (spec section 4.5)

The ensemble fusion engine was removed from `app.py` together with the YOLO
models, so the per-group arbitration algorithm is modelled from the spec:
group predictions by canonical identifier, compute the best confidence, walk
the priority order and pick the first model identity with a prediction within
the margin of the best confidence, falling back to the highest-confidence
prediction.  Confidences are embedded as rationals. -/

/-- Modelled from the spec: one raw prediction — label, confidence, source
model identity, canonical identifier; the missing code is the removed
ensemble fusion of `app.py`. -/
structure RawPrediction where
  label : String
  conf : ℚ
  model : String
  key : String

/-- Modelled from the spec: the fixed confidence margin 0.05. -/
def MARGIN : ℚ := 5 / 100

/-- Modelled from the spec: `bestConfidence` is the maximum confidence in the
group (0 for an empty group, which arbitration never sees). -/
def bestConfidence : List RawPrediction → ℚ
  | [] => 0
  | [p] => p.conf
  | p :: q :: rest => max p.conf (bestConfidence (q :: rest))

/-- A model identity qualifies for a group when it has a prediction whose
confidence is within the margin of the best confidence. -/
def QualifiesAt (margin best : ℚ) (g : List RawPrediction) (mid : String) : Prop :=
  ∃ p ∈ g, p.model = mid ∧ best - margin ≤ p.conf

/-- Modelled from the spec: walk the priority order and select the first
prediction of the first qualifying model identity. -/
def priorityPick (margin best : ℚ) (g : List RawPrediction) :
    List String → Option RawPrediction
  | [] => none
  | mid :: rest =>
    match g.find? (fun p => p.model == mid && decide (best - margin ≤ p.conf)) with
    | some p => some p
    | none => priorityPick margin best g rest

/-- Modelled from the spec: the fallback — the first prediction attaining the
best confidence. -/
def maxConfPick (best : ℚ) (g : List RawPrediction) : Option RawPrediction :=
  g.find? (fun p => decide (p.conf = best))

/-- Modelled from the spec: the per-group arbitration — priority walk with
margin, then highest-confidence fallback. -/
def selectWinner (priority : List String) (margin : ℚ)
    (g : List RawPrediction) : Option RawPrediction :=
  match g with
  | [] => none
  | _ :: _ =>
    match priorityPick margin (bestConfidence g) g priority with
    | some p => some p
    | none => maxConfPick (bestConfidence g) g

/-- Every group member is bounded by the best confidence. -/
theorem conf_le_bestConfidence :
    ∀ (g : List RawPrediction), ∀ q ∈ g, q.conf ≤ bestConfidence g := by
  intro g
  induction g with
  | nil => intro q hq; simp at hq
  | cons p rest ih =>
    intro q hq
    cases rest with
    | nil =>
      have hqp : q = p := by simpa using hq
      subst hqp
      exact le_refl _
    | cons r rs =>
      cases List.mem_cons.1 hq with
      | inl heq => subst heq; exact le_max_left _ _
      | inr hmem => exact le_trans (ih q hmem) (le_max_right _ _)

/-- The best confidence of a nonempty group is attained by a member. -/
theorem bestConfidence_attained :
    ∀ (g : List RawPrediction), g ≠ [] → ∃ q ∈ g, q.conf = bestConfidence g := by
  intro g
  induction g with
  | nil => intro h; exact absurd rfl h
  | cons p rest ih =>
    intro _
    cases rest with
    | nil => exact ⟨p, by simp, rfl⟩
    | cons r rs =>
      rcases le_total p.conf (bestConfidence (r :: rs)) with h | h
      · obtain ⟨q, hq, hqc⟩ := ih (by simp)
        exact ⟨q, List.mem_cons_of_mem p hq,
          by rw [hqc]; exact (max_eq_right h).symm⟩
      · exact ⟨p, by simp, (max_eq_left h).symm⟩

/-- A failed qualification search means the model identity does not qualify. -/
theorem not_qualifies_of_find_none {margin best : ℚ} {g : List RawPrediction}
    {mid : String}
    (h : g.find? (fun p => p.model == mid && decide (best - margin ≤ p.conf))
      = none) :
    ¬ QualifiesAt margin best g mid := by
  rw [List.find?_eq_none] at h
  rintro ⟨p, hp, hmod, hle⟩
  have hfalse := h p hp
  simp [hmod, hle] at hfalse

/-- A successful priority walk returns a group member of the first qualifying
model identity in the order, within the margin. -/
theorem priorityPick_some_spec {margin best : ℚ} {g : List RawPrediction} :
    ∀ (pr : List String) (p : RawPrediction),
      priorityPick margin best g pr = some p →
      p ∈ g ∧ ∃ pre mid suf, pr = pre ++ mid :: suf ∧ p.model = mid
        ∧ best - margin ≤ p.conf
        ∧ ∀ m2 ∈ pre, ¬ QualifiesAt margin best g m2 := by
  intro pr
  induction pr with
  | nil => intro p h; simp [priorityPick] at h
  | cons mid rest ih =>
    intro p h
    rw [priorityPick] at h
    cases hf : g.find? (fun q => q.model == mid && decide (best - margin ≤ q.conf)) with
    | some q =>
      rw [hf] at h
      have hqp : q = p := Option.some.inj h
      subst hqp
      have hpred := List.find?_some hf
      simp only [Bool.and_eq_true, beq_iff_eq, decide_eq_true_eq] at hpred
      exact ⟨List.mem_of_find?_eq_some hf,
        [], mid, rest, rfl, hpred.1, hpred.2, by simp⟩
    | none =>
      rw [hf] at h
      obtain ⟨hmem, pre, mid2, suf, hpr, hmod, hle, hpre⟩ := ih p h
      refine ⟨hmem, mid :: pre, mid2, suf, by rw [hpr]; rfl, hmod, hle, ?_⟩
      intro m2 hm2
      cases List.mem_cons.1 hm2 with
      | inl heq => rw [heq]; exact not_qualifies_of_find_none hf
      | inr h2 => exact hpre m2 h2

/-- A failed priority walk means no model identity in the order qualifies. -/
theorem priorityPick_none_spec {margin best : ℚ} {g : List RawPrediction} :
    ∀ (pr : List String), priorityPick margin best g pr = none →
      ∀ mid ∈ pr, ¬ QualifiesAt margin best g mid := by
  intro pr
  induction pr with
  | nil => intro _ mid hmid; simp at hmid
  | cons mid0 rest ih =>
    intro h mid hmid
    rw [priorityPick] at h
    cases hf : g.find? (fun q => q.model == mid0 && decide (best - margin ≤ q.conf)) with
    | some q => rw [hf] at h; exact absurd h (by simp)
    | none =>
      rw [hf] at h
      cases List.mem_cons.1 hmid with
      | inl heq => rw [heq]; exact not_qualifies_of_find_none hf
      | inr h2 => exact ih h mid h2

/-- The fallback pick of a nonempty group returns a member attaining the best
confidence. -/
theorem maxConfPick_spec {g : List RawPrediction} (hg : g ≠ []) :
    ∃ p, maxConfPick (bestConfidence g) g = some p ∧ p ∈ g
      ∧ p.conf = bestConfidence g := by
  obtain ⟨q, hq, hqc⟩ := bestConfidence_attained g hg
  cases hf : maxConfPick (bestConfidence g) g with
  | none =>
    have hfu : g.find? (fun p => decide (p.conf = bestConfidence g)) = none := hf
    rw [List.find?_eq_none] at hfu
    have := hfu q hq
    simp [hqc] at this
  | some p =>
    have hfu : g.find? (fun p => decide (p.conf = bestConfidence g)) = some p := hf
    have hpred := List.find?_some hfu
    simp only [decide_eq_true_eq] at hpred
    exact ⟨p, rfl, List.mem_of_find?_eq_some hfu, hpred⟩

/-- C3 (spec-modelled): for every nonempty group of raw predictions sharing a
canonical identifier, arbitration selects a winner from the group; the winner
belongs to the first model identity in the priority order that has a
prediction with confidence at least `bestConfidence − 0.05` (no earlier
identity qualifying), or, if no priority identity qualifies, the winner
attains the maximum confidence of the group. -/
theorem arbitration_priority_margin (priority : List String)
    (g : List RawPrediction) (hg : g ≠ []) :
    ∃ p, selectWinner priority MARGIN g = some p ∧ p ∈ g
      ∧ ((∃ pre mid suf, priority = pre ++ mid :: suf
            ∧ p.model = mid
            ∧ bestConfidence g - MARGIN ≤ p.conf
            ∧ ∀ m2 ∈ pre, ¬ QualifiesAt MARGIN (bestConfidence g) g m2)
        ∨ ((∀ mid ∈ priority, ¬ QualifiesAt MARGIN (bestConfidence g) g mid)
            ∧ p.conf = bestConfidence g)) := by
  cases g with
  | nil => exact absurd rfl hg
  | cons p0 rest =>
    have hsel : selectWinner priority MARGIN (p0 :: rest)
        = match priorityPick MARGIN (bestConfidence (p0 :: rest)) (p0 :: rest)
            priority with
          | some p => some p
          | none => maxConfPick (bestConfidence (p0 :: rest)) (p0 :: rest) := rfl
    cases hpp : priorityPick MARGIN (bestConfidence (p0 :: rest)) (p0 :: rest)
        priority with
    | some p =>
      obtain ⟨hmem, pre, mid, suf, hpr, hmod, hle, hpre⟩ :=
        priorityPick_some_spec priority p hpp
      exact ⟨p, by rw [hsel, hpp], hmem,
        Or.inl ⟨pre, mid, suf, hpr, hmod, hle, hpre⟩⟩
    | none =>
      obtain ⟨p, hfind, hmem, hconf⟩ := maxConfPick_spec
        (g := p0 :: rest) (by simp)
      exact ⟨p, by rw [hsel, hpp]; exact hfind, hmem,
        Or.inr ⟨priorityPick_none_spec priority hpp, hconf⟩⟩

/-- Witness for C3 at the worked example of the spec: model A has `leg_press` at
confidence 0.91 (not in the priority list), model B at 0.88 (first in the
priority list). -/
theorem arbitration_priority_margin_witness :
    ([⟨"leg_press", 91/100, "modelA", "leg_press"⟩,
      ⟨"leg_press", 88/100, "modelB", "leg_press"⟩] : List RawPrediction) ≠ []
      ∧ ∃ p, selectWinner ["modelB"] MARGIN
            [⟨"leg_press", 91/100, "modelA", "leg_press"⟩,
             ⟨"leg_press", 88/100, "modelB", "leg_press"⟩] = some p
          ∧ p ∈ [(⟨"leg_press", 91/100, "modelA", "leg_press"⟩ : RawPrediction),
                 ⟨"leg_press", 88/100, "modelB", "leg_press"⟩]
          ∧ ((∃ pre mid suf, ["modelB"] = pre ++ mid :: suf
                ∧ p.model = mid
                ∧ bestConfidence
                    [⟨"leg_press", 91/100, "modelA", "leg_press"⟩,
                     ⟨"leg_press", 88/100, "modelB", "leg_press"⟩] - MARGIN
                    ≤ p.conf
                ∧ ∀ m2 ∈ pre, ¬ QualifiesAt MARGIN
                    (bestConfidence
                      [⟨"leg_press", 91/100, "modelA", "leg_press"⟩,
                       ⟨"leg_press", 88/100, "modelB", "leg_press"⟩])
                    [⟨"leg_press", 91/100, "modelA", "leg_press"⟩,
                     ⟨"leg_press", 88/100, "modelB", "leg_press"⟩] m2)
            ∨ ((∀ mid ∈ (["modelB"] : List String), ¬ QualifiesAt MARGIN
                  (bestConfidence
                    [⟨"leg_press", 91/100, "modelA", "leg_press"⟩,
                     ⟨"leg_press", 88/100, "modelB", "leg_press"⟩])
                  [⟨"leg_press", 91/100, "modelA", "leg_press"⟩,
                   ⟨"leg_press", 88/100, "modelB", "leg_press"⟩] mid)
                ∧ p.conf = bestConfidence
                    [⟨"leg_press", 91/100, "modelA", "leg_press"⟩,
                     ⟨"leg_press", 88/100, "modelB", "leg_press"⟩])) :=
  ⟨by simp,
   arbitration_priority_margin ["modelB"]
     [⟨"leg_press", 91/100, "modelA", "leg_press"⟩,
      ⟨"leg_press", 88/100, "modelB", "leg_press"⟩] (by simp)⟩

end GymVision
